import Mathlib

/-!
Verification of the Remini Telegram image-enhancer bot (src/bot.py).

The development shallow-embeds the parts of `src/bot.py` that the claims
are about:

* the color-mode normalization at the top of `ImageEnhancer.enhance_image`
  (lines 33-41), including the pixel-level compositing semantics of
  Pillow's `Image.paste`;
* the scale-factor selection and dimension arithmetic (lines 43-63);
* the whole of `enhance_image` (lines 24-108), with the off-the-shelf
  Pillow filters abstracted as a record of size-preserving image
  transforms;
* the control flow of the message handlers `handle_photo`
  (lines 144-242) and `handle_document` (lines 244-325), as traces of
  externally visible actions.

Machine arithmetic: Python's `int(x)` on the nonnegative values occurring
here is floor; the float constants of the source (3.0, 2.5, 2.0, 2500)
are exactly representable, and the dimension arithmetic is modelled over
`ℚ` with explicit floors.
-/

namespace Remini

/-- A pixel in RGBA view: four channels, each in 0..255.  Images of mode
`LA` and `L` store their gray value in all of `r`, `g`, `b`; mode `P`
images store their palette-resolved RGBA value (Pillow's
`convert('RGBA')` is a palette lookup). -/
structure Pix where
  r : ℕ
  g : ℕ
  b : ℕ
  a : ℕ
  deriving DecidableEq, Repr

/-- The color modes distinguished by `enhance_image` lines 33-41: the
three transparency-bearing modes `RGBA`, `LA`, `P`, the target mode
`RGB`, and `L` as a representative of the remaining modes that take the
`image.convert('RGB')` branch. -/
inductive Mode where
  | RGB
  | RGBA
  | LA
  | P
  | L
  deriving DecidableEq, Repr

/-- An in-memory raster image: mode, dimensions, and pixel data in RGBA
view (see `Pix`). -/
structure Img where
  mode : Mode
  width : ℕ
  height : ℕ
  px : ℕ → ℕ → Pix

/-- Pillow's MULDIV255 macro (ImagingUtils.h): exact division by 255
with rounding, computed as `tmp = a*b + 128; ((tmp >> 8) + tmp) >> 8`. -/
def muldiv255 (a b : ℕ) : ℕ :=
  ((a * b + 128) / 256 + (a * b + 128)) / 256

/-- Pillow's BLEND macro, used by `Image.paste` with an `L`-mode mask:
the result interpolates between the background channel `in1` and the
pasted channel `in2` by the mask value. -/
def blend (mask in1 in2 : ℕ) : ℕ :=
  muldiv255 in1 (255 - mask) + muldiv255 in2 mask

/-- Lines 33-41 of `enhance_image`: color-mode normalization.

* `RGBA` and `P` (the latter first converted to `RGBA`, a palette
  lookup): pasted onto a white `RGB` background with the alpha channel
  as mask — each channel is blended with white by the pixel's alpha.
* `LA`: the source computes `mask = ... if image.mode == 'RGBA' else
  None`, so the paste has no mask; Pillow then converts the pasted image
  to the background's mode (`LA → RGB` drops alpha) and copies it over
  the background wholesale, ignoring transparency.
* `RGB`: unchanged.
* any other mode (`L` here): `image.convert('RGB')`. -/
def normalizeMode (image : Img) : Img :=
  match image.mode with
  | Mode.RGBA | Mode.P =>
      { mode := Mode.RGB, width := image.width, height := image.height,
        px := fun x y =>
          let p := image.px x y
          ⟨blend p.a 255 p.r, blend p.a 255 p.g, blend p.a 255 p.b, 255⟩ }
  | Mode.LA =>
      { mode := Mode.RGB, width := image.width, height := image.height,
        px := fun x y =>
          let p := image.px x y
          ⟨p.r, p.g, p.b, 255⟩ }
  | Mode.RGB => image
  | Mode.L =>
      { mode := Mode.RGB, width := image.width, height := image.height,
        px := fun x y =>
          let p := image.px x y
          ⟨p.r, p.g, p.b, 255⟩ }

/-- Python's `int()` applied to the nonnegative rationals occurring in
`enhance_image`: truncation, which on nonnegative values is floor. -/
def pyInt (q : ℚ) : ℕ :=
  (⌊q⌋).toNat

/-- Lines 43-50 of `enhance_image`: the scale factor as a function of
the largest input dimension. -/
def scaleFor (max_dim : ℕ) : ℚ :=
  if max_dim < 500 then 3
  else if max_dim < 1000 then 5/2
  else 2

/-- Line 57 of `enhance_image`: the final size cap. -/
def max_size : ℕ := 2500

/-- Lines 52-54: the pre-cap scaled dimensions `(new_width, new_height)`
before the `max_size` limit is applied. -/
def preCapSize (w h : ℕ) : ℕ × ℕ :=
  let scale := scaleFor (max w h)
  (pyInt ((w : ℚ) * scale), pyInt ((h : ℚ) * scale))

/-- Lines 56-58: whether the `max_size` limit engages. -/
def capEngaged (w h : ℕ) : Bool :=
  max (preCapSize w h).1 (preCapSize w h).2 > max_size

/-- Lines 52-63 of `enhance_image`: the final target dimensions
`new_size`, after the `max_size` limit. -/
def enhancedSize (w h : ℕ) : ℕ × ℕ :=
  let new_width := (preCapSize w h).1
  let new_height := (preCapSize w h).2
  if max new_width new_height > max_size then
    let ratio : ℚ := (max_size : ℚ) / (max new_width new_height : ℚ)
    (pyInt ((new_width : ℚ) * ratio), pyInt ((new_height : ℚ) * ratio))
  else
    (new_width, new_height)

/-- The metadata record built at lines 102-106 of `enhance_image`.  The
source formats the two sizes as strings `f"{w}×{h}"`; the model keeps
the underlying dimension pairs, and `scale_factor` is the float `scale`
(exactly representable here). -/
structure Stats where
  original_size : ℕ × ℕ
  enhanced_size : ℕ × ℕ
  scale_factor : ℚ
  deriving DecidableEq, Repr

/-- The Pillow filter operations called by `enhance_image` lines 66-97,
abstracted as an arbitrary record of pure image transforms together
with the library facts the code relies on: `resize` produces an image
of the requested size, and every filter and enhancer preserves the
image's dimensions. -/
structure PixelLib where
  resize : Img → ℕ × ℕ → Img
  gaussianBlur : ℚ → Img → Img
  unsharpMask : ℕ → ℕ → ℕ → Img → Img
  sharpness : ℚ → Img → Img
  contrast : ℚ → Img → Img
  color : ℚ → Img → Img
  brightness : ℚ → Img → Img
  detail : Img → Img
  sharpen : Img → Img
  edgeEnhance : Img → Img
  resize_size : ∀ i s, ((resize i s).width, (resize i s).height) = s
  gaussianBlur_size : ∀ r i,
    ((gaussianBlur r i).width, (gaussianBlur r i).height) = (i.width, i.height)
  unsharpMask_size : ∀ r p t i,
    ((unsharpMask r p t i).width, (unsharpMask r p t i).height) = (i.width, i.height)
  sharpness_size : ∀ f i,
    ((sharpness f i).width, (sharpness f i).height) = (i.width, i.height)
  contrast_size : ∀ f i,
    ((contrast f i).width, (contrast f i).height) = (i.width, i.height)
  color_size : ∀ f i,
    ((color f i).width, (color f i).height) = (i.width, i.height)
  brightness_size : ∀ f i,
    ((brightness f i).width, (brightness f i).height) = (i.width, i.height)
  detail_size : ∀ i, ((detail i).width, (detail i).height) = (i.width, i.height)
  sharpen_size : ∀ i, ((sharpen i).width, (sharpen i).height) = (i.width, i.height)
  edgeEnhance_size : ∀ i,
    ((edgeEnhance i).width, (edgeEnhance i).height) = (i.width, i.height)

/-- `ImageEnhancer.enhance_image` (src/bot.py lines 24-108): mode
normalization, scale selection, dimension arithmetic with the final
cap, resize, the nine-step filter chain, and the returned
`(image, stats)` pair.  The filter chain is `lib`'s transforms applied
with the literal constants of the source. -/
def enhance_image (lib : PixelLib) (image0 : Img) : Img × Stats :=
  let original_size : ℕ × ℕ := (image0.width, image0.height)
  let image1 := normalizeMode image0
  let scale := scaleFor (max original_size.1 original_size.2)
  let new_size := enhancedSize original_size.1 original_size.2
  let image2 := lib.resize image1 new_size
  let image3 := lib.gaussianBlur (1/2) image2
  let image4 := lib.unsharpMask 2 150 3 image3
  let image5 := lib.sharpness (9/5) image4
  let image6 := lib.contrast (6/5) image5
  let image7 := lib.color (11/10) image6
  let image8 := lib.brightness (103/100) image7
  let image9 := lib.detail image8
  let image10 := lib.sharpen image9
  let image11 := lib.edgeEnhance image10
  let enhanced_size : ℕ × ℕ := (image11.width, image11.height)
  (image11, ⟨original_size, enhanced_size, scale⟩)

/-! ### Message handlers

The handlers are modelled as traces of their externally visible
actions, in program order.  Raw attachment bytes are abstract, and
decoding (`Image.open`, which raises on bytes that are not a decodable
raster image) is a parameter `decode : Bytes → Option Img`. -/

/-- Raw attachment bytes. -/
def Bytes := List ℕ

/-- The externally visible actions a handler can take, in the order the
source performs them. -/
inductive Action where
  | sendProcessingMsg
  | fetchFile
  | downloadBytes
  | decodeImage
  | enhance
  | encodeOutput
  | deleteProcessingMsg
  | sendPhoto
  | sendDocument
  | editProcessingToError
  | replyError
  | replyNotImage
  | replyTooLarge
  deriving DecidableEq, Repr

/-- `handle_photo` (src/bot.py lines 144-242): sends a processing
message, fetches and downloads the photo, decodes it; on decode failure
(`Image.open` raises) the `except` branch edits the processing message
to the user-facing error text and nothing is sent; on success the image
is enhanced, encoded, the processing message deleted, and the enhanced
photo sent. -/
def handle_photo (lib : PixelLib) (decode : Bytes → Option Img)
    (photo_bytes : Bytes) : List Action :=
  match decode photo_bytes with
  | none =>
      [Action.sendProcessingMsg, Action.fetchFile, Action.downloadBytes,
       Action.editProcessingToError]
  | some image =>
      let _ := enhance_image lib image
      [Action.sendProcessingMsg, Action.fetchFile, Action.downloadBytes,
       Action.decodeImage, Action.enhance, Action.encodeOutput,
       Action.deleteProcessingMsg, Action.sendPhoto]

/-- A document attachment as the handler sees it before fetching any
bytes: declared MIME type (`None` possible, modelled as a character
list), declared file size, and the (not yet fetched) content. -/
structure Document where
  mime_type : Option (List Char)
  file_size : ℕ
  content : Bytes

/-- Line 250 of `handle_document`: Python's
`document.mime_type and document.mime_type.startswith('image/')`
(`None` is falsy). -/
def isImageMime (m : Option (List Char)) : Bool :=
  match m with
  | none => false
  | some s => List.isPrefixOf ['i', 'm', 'a', 'g', 'e', '/'] s

/-- Line 257 of `handle_document`: the document size cap (3MB). -/
def docSizeCap : ℕ := 3 * 1024 * 1024

/-- `handle_document` (src/bot.py lines 244-325): a non-image MIME type
is rejected immediately; then a declared size strictly over `docSizeCap`
is rejected; only then does the handler send the processing message,
fetch, download, decode (failure takes the `except` branch and replies
with the error text), enhance, encode, and reply with the document. -/
def handle_document (lib : PixelLib) (decode : Bytes → Option Img)
    (document : Document) : List Action :=
  if ¬ (isImageMime document.mime_type) then
    [Action.replyNotImage]
  else if document.file_size > docSizeCap then
    [Action.replyTooLarge]
  else
    match decode document.content with
    | none =>
        [Action.sendProcessingMsg, Action.fetchFile, Action.downloadBytes,
         Action.replyError]
    | some image =>
        let _ := enhance_image lib image
        [Action.sendProcessingMsg, Action.fetchFile, Action.downloadBytes,
         Action.decodeImage, Action.enhance, Action.encodeOutput,
         Action.deleteProcessingMsg, Action.sendDocument]

/-! ### Characterization of the dimension arithmetic over ℕ

The rational arithmetic of `preCapSize` and `enhancedSize` evaluates,
on the scale factors actually selected (3, 5/2, 2) and the cap ratio
`max_size / M`, to natural-number multiplication and floor division.
The mirrors below are proved equal to the embedded definitions and make
concrete instances computable by `decide`. -/

lemma pyInt_nat_mul_nat (w n : ℕ) : pyInt ((w : ℚ) * (n : ℚ)) = w * n := by
  unfold pyInt
  rw [← Nat.cast_mul, Int.floor_natCast, Int.toNat_natCast]

lemma pyInt_nat_mul_div (w n d : ℕ) :
    pyInt ((w : ℚ) * ((n : ℚ) / (d : ℚ))) = w * n / d := by
  unfold pyInt
  rw [mul_div_assoc', ← Nat.cast_mul, Rat.floor_natCast_div_natCast,
    ← Int.natCast_div, Int.toNat_natCast]

/-- ℕ-level mirror of `preCapSize`. -/
def preCapSizeNat (w h : ℕ) : ℕ × ℕ :=
  if max w h < 500 then (w * 3, h * 3)
  else if max w h < 1000 then (w * 5 / 2, h * 5 / 2)
  else (w * 2, h * 2)

/-- ℕ-level mirror of `enhancedSize`. -/
def enhancedSizeNat (w h : ℕ) : ℕ × ℕ :=
  let nw := (preCapSizeNat w h).1
  let nh := (preCapSizeNat w h).2
  if max_size < max nw nh then
    (nw * max_size / max nw nh, nh * max_size / max nw nh)
  else
    (nw, nh)

lemma preCapSize_eq (w h : ℕ) : preCapSize w h = preCapSizeNat w h := by
  by_cases h5 : max w h < 500
  · simp only [preCapSize, preCapSizeNat, scaleFor, if_pos h5]
    rw [show (3 : ℚ) = ((3 : ℕ) : ℚ) by norm_num, pyInt_nat_mul_nat,
      pyInt_nat_mul_nat]
  · by_cases h10 : max w h < 1000
    · simp only [preCapSize, preCapSizeNat, scaleFor, if_neg h5, if_pos h10]
      rw [show (5 / 2 : ℚ) = ((5 : ℕ) : ℚ) / ((2 : ℕ) : ℚ) by norm_num,
        pyInt_nat_mul_div, pyInt_nat_mul_div]
    · simp only [preCapSize, preCapSizeNat, scaleFor, if_neg h5, if_neg h10]
      rw [show (2 : ℚ) = ((2 : ℕ) : ℚ) by norm_num, pyInt_nat_mul_nat,
        pyInt_nat_mul_nat]

lemma enhancedSize_eq (w h : ℕ) : enhancedSize w h = enhancedSizeNat w h := by
  simp only [enhancedSize, enhancedSizeNat, ← preCapSize_eq, gt_iff_lt]
  by_cases hc : max_size < max (preCapSize w h).1 (preCapSize w h).2
  · simp only [if_pos hc]
    rw [← Nat.cast_max, pyInt_nat_mul_div, pyInt_nat_mul_div]
  · simp only [if_neg hc]

lemma capEngaged_iff (w h : ℕ) :
    capEngaged w h = true ↔
      max_size < max (preCapSizeNat w h).1 (preCapSizeNat w h).2 := by
  simp [capEngaged, preCapSize_eq]

/-! ### Floor bounds for `pyInt` on nonnegative arguments -/

lemma pyInt_cast (q : ℚ) (hq : 0 ≤ q) : ((pyInt q : ℕ) : ℚ) = ((⌊q⌋ : ℤ) : ℚ) := by
  unfold pyInt
  have h0 : (0 : ℤ) ≤ ⌊q⌋ := Int.floor_nonneg.mpr hq
  rw [← Int.toNat_of_nonneg h0]
  norm_cast

lemma pyInt_le (q : ℚ) (hq : 0 ≤ q) : ((pyInt q : ℕ) : ℚ) ≤ q := by
  rw [pyInt_cast q hq]
  exact Int.floor_le q

lemma lt_pyInt_add_one (q : ℚ) (hq : 0 ≤ q) : q < (pyInt q : ℕ) + 1 := by
  rw [show ((pyInt q : ℕ) : ℚ) + 1 = ((⌊q⌋ : ℤ) : ℚ) + 1 from by rw [pyInt_cast q hq]]
  exact Int.lt_floor_add_one q

lemma scaleFor_pos (d : ℕ) : 0 < scaleFor d := by
  unfold scaleFor
  split
  · norm_num
  · split <;> norm_num

/-! ### Size facts about the full pipeline -/

lemma enhance_image_size (lib : PixelLib) (image0 : Img) :
    ((enhance_image lib image0).1.width, (enhance_image lib image0).1.height)
      = enhancedSize image0.width image0.height := by
  unfold enhance_image
  simp only [lib.edgeEnhance_size, lib.sharpen_size, lib.detail_size,
    lib.brightness_size, lib.color_size, lib.contrast_size,
    lib.sharpness_size, lib.unsharpMask_size, lib.gaussianBlur_size,
    lib.resize_size]

lemma enhance_image_width (lib : PixelLib) (image0 : Img) :
    (enhance_image lib image0).1.width
      = (enhancedSize image0.width image0.height).1 :=
  congrArg Prod.fst (enhance_image_size lib image0)

lemma enhance_image_height (lib : PixelLib) (image0 : Img) :
    (enhance_image lib image0).1.height
      = (enhancedSize image0.width image0.height).2 :=
  congrArg Prod.snd (enhance_image_size lib image0)

lemma enhance_image_stats (lib : PixelLib) (image0 : Img) :
    (enhance_image lib image0).2 =
      { original_size := (image0.width, image0.height),
        enhanced_size := enhancedSize image0.width image0.height,
        scale_factor := scaleFor (max image0.width image0.height) } := by
  unfold enhance_image
  simp only [lib.edgeEnhance_size, lib.sharpen_size, lib.detail_size,
    lib.brightness_size, lib.color_size, lib.contrast_size,
    lib.sharpness_size, lib.unsharpMask_size, lib.gaussianBlur_size,
    lib.resize_size]

/-! ### Concrete instances used by witnesses -/

/-- A concrete pixel library where every filter is the identity and
`resize` only records the new dimensions; it satisfies all the size
laws. -/
def idLib : PixelLib where
  resize i s := { mode := i.mode, width := s.1, height := s.2, px := i.px }
  gaussianBlur _ i := i
  unsharpMask _ _ _ i := i
  sharpness _ i := i
  contrast _ i := i
  color _ i := i
  brightness _ i := i
  detail i := i
  sharpen i := i
  edgeEnhance i := i
  resize_size _ _ := rfl
  gaussianBlur_size _ _ := rfl
  unsharpMask_size _ _ _ _ := rfl
  sharpness_size _ _ := rfl
  contrast_size _ _ := rfl
  color_size _ _ := rfl
  brightness_size _ _ := rfl
  detail_size _ := rfl
  sharpen_size _ := rfl
  edgeEnhance_size _ := rfl

/-- A concrete opaque black RGB test image of the given dimensions. -/
def testImg (w h : ℕ) : Img :=
  { mode := Mode.RGB, width := w, height := h, px := fun _ _ => ⟨0, 0, 0, 255⟩ }

lemma preCapSize_fst (w h : ℕ) :
    (preCapSize w h).1 = pyInt ((w : ℚ) * scaleFor (max w h)) := rfl

lemma preCapSize_snd (w h : ℕ) :
    (preCapSize w h).2 = pyInt ((h : ℚ) * scaleFor (max w h)) := rfl

lemma enhancedSizeNat_le_max_size (w h : ℕ) :
    (enhancedSizeNat w h).1 ≤ max_size ∧ (enhancedSizeNat w h).2 ≤ max_size := by
  unfold enhancedSizeNat
  by_cases hc : max_size < max (preCapSizeNat w h).1 (preCapSizeNat w h).2
  · simp only [if_pos hc]
    have hM : 0 < max (preCapSizeNat w h).1 (preCapSizeNat w h).2 :=
      lt_of_le_of_lt (Nat.zero_le _) hc
    constructor
    · calc (preCapSizeNat w h).1 * max_size /
            max (preCapSizeNat w h).1 (preCapSizeNat w h).2
          ≤ max (preCapSizeNat w h).1 (preCapSizeNat w h).2 * max_size /
            max (preCapSizeNat w h).1 (preCapSizeNat w h).2 :=
            Nat.div_le_div_right (Nat.mul_le_mul_right _ (le_max_left _ _))
        _ = max_size := Nat.mul_div_cancel_left _ hM
    · calc (preCapSizeNat w h).2 * max_size /
            max (preCapSizeNat w h).1 (preCapSizeNat w h).2
          ≤ max (preCapSizeNat w h).1 (preCapSizeNat w h).2 * max_size /
            max (preCapSizeNat w h).1 (preCapSizeNat w h).2 :=
            Nat.div_le_div_right (Nat.mul_le_mul_right _ (le_max_right _ _))
        _ = max_size := Nat.mul_div_cancel_left _ hM
  · simp only [if_neg hc]
    push_neg at hc
    exact ⟨le_trans (le_max_left _ _) hc, le_trans (le_max_right _ _) hc⟩

/-- When the cap does not engage, the enhanced size is the pre-cap
size. -/
lemma enhancedSize_of_not_cap (w h : ℕ)
    (hc : ¬ max (preCapSize w h).1 (preCapSize w h).2 > max_size) :
    enhancedSize w h = ((preCapSize w h).1, (preCapSize w h).2) := by
  unfold enhancedSize
  simp only [if_neg hc]

/-- When the cap engages, the enhanced size is both pre-cap dimensions
scaled by the common ratio `max_size / M` and floored. -/
lemma enhancedSize_of_cap (w h : ℕ)
    (hc : max (preCapSize w h).1 (preCapSize w h).2 > max_size) :
    enhancedSize w h =
      (pyInt (((preCapSize w h).1 : ℚ) *
          ((max_size : ℚ) / ((max (preCapSize w h).1 (preCapSize w h).2 : ℕ) : ℚ))),
       pyInt (((preCapSize w h).2 : ℚ) *
          ((max_size : ℚ) / ((max (preCapSize w h).1 (preCapSize w h).2 : ℕ) : ℚ)))) := by
  unfold enhancedSize
  simp only [if_pos hc]
  rw [← Nat.cast_max]

/-- Both enhanced dimensions are, up to the truncation error of at most
two floors, the original dimensions scaled by one common positive
ratio. -/
lemma enhancedSize_approx (w h : ℕ) :
    ∃ r : ℚ, 0 < r ∧
      (((enhancedSize w h).1 : ℕ) : ℚ) ≤ (w : ℚ) * r ∧
      (w : ℚ) * r < (((enhancedSize w h).1 : ℕ) : ℚ) + 2 ∧
      (((enhancedSize w h).2 : ℕ) : ℚ) ≤ (h : ℚ) * r ∧
      (h : ℚ) * r < (((enhancedSize w h).2 : ℕ) : ℚ) + 2 := by
  have hs0 : 0 < scaleFor (max w h) := scaleFor_pos _
  have hws : (0 : ℚ) ≤ (w : ℚ) * scaleFor (max w h) :=
    mul_nonneg (Nat.cast_nonneg w) hs0.le
  have hhs : (0 : ℚ) ≤ (h : ℚ) * scaleFor (max w h) :=
    mul_nonneg (Nat.cast_nonneg h) hs0.le
  have hnw1 : (((preCapSize w h).1 : ℕ) : ℚ) ≤ (w : ℚ) * scaleFor (max w h) := by
    rw [preCapSize_fst]; exact pyInt_le _ hws
  have hnw2 : (w : ℚ) * scaleFor (max w h) < (((preCapSize w h).1 : ℕ) : ℚ) + 1 := by
    rw [preCapSize_fst]; exact lt_pyInt_add_one _ hws
  have hnh1 : (((preCapSize w h).2 : ℕ) : ℚ) ≤ (h : ℚ) * scaleFor (max w h) := by
    rw [preCapSize_snd]; exact pyInt_le _ hhs
  have hnh2 : (h : ℚ) * scaleFor (max w h) < (((preCapSize w h).2 : ℕ) : ℚ) + 1 := by
    rw [preCapSize_snd]; exact lt_pyInt_add_one _ hhs
  by_cases hc : max (preCapSize w h).1 (preCapSize w h).2 > max_size
  · have hM0 : (0 : ℚ) < ((max (preCapSize w h).1 (preCapSize w h).2 : ℕ) : ℚ) := by
      exact_mod_cast lt_of_le_of_lt (Nat.zero_le max_size) hc
    have hr0 : (0 : ℚ) <
        (max_size : ℚ) / ((max (preCapSize w h).1 (preCapSize w h).2 : ℕ) : ℚ) :=
      div_pos (by norm_num [max_size]) hM0
    have hr1 : (max_size : ℚ) / ((max (preCapSize w h).1 (preCapSize w h).2 : ℕ) : ℚ) < 1 := by
      rw [div_lt_one hM0]
      exact_mod_cast hc
    refine ⟨scaleFor (max w h) *
        ((max_size : ℚ) / ((max (preCapSize w h).1 (preCapSize w h).2 : ℕ) : ℚ)),
      mul_pos hs0 hr0, ?_, ?_, ?_, ?_⟩
    · rw [enhancedSize_of_cap w h hc]
      calc ((pyInt (((preCapSize w h).1 : ℚ) *
              ((max_size : ℚ) / ((max (preCapSize w h).1 (preCapSize w h).2 : ℕ) : ℚ))) : ℕ) : ℚ)
          ≤ ((preCapSize w h).1 : ℚ) *
              ((max_size : ℚ) / ((max (preCapSize w h).1 (preCapSize w h).2 : ℕ) : ℚ)) :=
            pyInt_le _ (mul_nonneg (Nat.cast_nonneg _) hr0.le)
        _ ≤ ((w : ℚ) * scaleFor (max w h)) *
              ((max_size : ℚ) / ((max (preCapSize w h).1 (preCapSize w h).2 : ℕ) : ℚ)) :=
            mul_le_mul_of_nonneg_right hnw1 hr0.le
        _ = (w : ℚ) * (scaleFor (max w h) *
              ((max_size : ℚ) / ((max (preCapSize w h).1 (preCapSize w h).2 : ℕ) : ℚ))) := by
            ring
    · rw [enhancedSize_of_cap w h hc]
      have h4 : ((preCapSize w h).1 : ℚ) *
            ((max_size : ℚ) / ((max (preCapSize w h).1 (preCapSize w h).2 : ℕ) : ℚ))
          < ((pyInt (((preCapSize w h).1 : ℚ) *
              ((max_size : ℚ) / ((max (preCapSize w h).1 (preCapSize w h).2 : ℕ) : ℚ))) : ℕ) : ℚ) + 1 :=
        lt_pyInt_add_one _ (mul_nonneg (Nat.cast_nonneg _) hr0.le)
      calc (w : ℚ) * (scaleFor (max w h) *
              ((max_size : ℚ) / ((max (preCapSize w h).1 (preCapSize w h).2 : ℕ) : ℚ)))
          = ((w : ℚ) * scaleFor (max w h)) *
              ((max_size : ℚ) / ((max (preCapSize w h).1 (preCapSize w h).2 : ℕ) : ℚ)) := by
            ring
        _ < ((((preCapSize w h).1 : ℕ) : ℚ) + 1) *
              ((max_size : ℚ) / ((max (preCapSize w h).1 (preCapSize w h).2 : ℕ) : ℚ)) :=
            mul_lt_mul_of_pos_right hnw2 hr0
        _ = ((preCapSize w h).1 : ℚ) *
              ((max_size : ℚ) / ((max (preCapSize w h).1 (preCapSize w h).2 : ℕ) : ℚ))
            + ((max_size : ℚ) / ((max (preCapSize w h).1 (preCapSize w h).2 : ℕ) : ℚ)) := by
            ring
        _ < ((pyInt (((preCapSize w h).1 : ℚ) *
              ((max_size : ℚ) / ((max (preCapSize w h).1 (preCapSize w h).2 : ℕ) : ℚ))) : ℕ) : ℚ) + 2 := by
            linarith [h4, hr1]
    · rw [enhancedSize_of_cap w h hc]
      calc ((pyInt (((preCapSize w h).2 : ℚ) *
              ((max_size : ℚ) / ((max (preCapSize w h).1 (preCapSize w h).2 : ℕ) : ℚ))) : ℕ) : ℚ)
          ≤ ((preCapSize w h).2 : ℚ) *
              ((max_size : ℚ) / ((max (preCapSize w h).1 (preCapSize w h).2 : ℕ) : ℚ)) :=
            pyInt_le _ (mul_nonneg (Nat.cast_nonneg _) hr0.le)
        _ ≤ ((h : ℚ) * scaleFor (max w h)) *
              ((max_size : ℚ) / ((max (preCapSize w h).1 (preCapSize w h).2 : ℕ) : ℚ)) :=
            mul_le_mul_of_nonneg_right hnh1 hr0.le
        _ = (h : ℚ) * (scaleFor (max w h) *
              ((max_size : ℚ) / ((max (preCapSize w h).1 (preCapSize w h).2 : ℕ) : ℚ))) := by
            ring
    · rw [enhancedSize_of_cap w h hc]
      have h4 : ((preCapSize w h).2 : ℚ) *
            ((max_size : ℚ) / ((max (preCapSize w h).1 (preCapSize w h).2 : ℕ) : ℚ))
          < ((pyInt (((preCapSize w h).2 : ℚ) *
              ((max_size : ℚ) / ((max (preCapSize w h).1 (preCapSize w h).2 : ℕ) : ℚ))) : ℕ) : ℚ) + 1 :=
        lt_pyInt_add_one _ (mul_nonneg (Nat.cast_nonneg _) hr0.le)
      calc (h : ℚ) * (scaleFor (max w h) *
              ((max_size : ℚ) / ((max (preCapSize w h).1 (preCapSize w h).2 : ℕ) : ℚ)))
          = ((h : ℚ) * scaleFor (max w h)) *
              ((max_size : ℚ) / ((max (preCapSize w h).1 (preCapSize w h).2 : ℕ) : ℚ)) := by
            ring
        _ < ((((preCapSize w h).2 : ℕ) : ℚ) + 1) *
              ((max_size : ℚ) / ((max (preCapSize w h).1 (preCapSize w h).2 : ℕ) : ℚ)) :=
            mul_lt_mul_of_pos_right hnh2 hr0
        _ = ((preCapSize w h).2 : ℚ) *
              ((max_size : ℚ) / ((max (preCapSize w h).1 (preCapSize w h).2 : ℕ) : ℚ))
            + ((max_size : ℚ) / ((max (preCapSize w h).1 (preCapSize w h).2 : ℕ) : ℚ)) := by
            ring
        _ < ((pyInt (((preCapSize w h).2 : ℚ) *
              ((max_size : ℚ) / ((max (preCapSize w h).1 (preCapSize w h).2 : ℕ) : ℚ))) : ℕ) : ℚ) + 2 := by
            linarith [h4, hr1]
  · refine ⟨scaleFor (max w h), hs0, ?_, ?_, ?_, ?_⟩ <;>
      rw [enhancedSize_of_not_cap w h hc]
    · exact hnw1
    · linarith [hnw2]
    · exact hnh1
    · linarith [hnh2]

lemma pyInt_natCast (n : ℕ) : pyInt ((n : ℕ) : ℚ) = n := by
  unfold pyInt
  rw [Int.floor_natCast, Int.toNat_natCast]

/-- When the cap engages, the dimension that realized the pre-cap
maximum ends at exactly `max_size`, strictly below `orig * scale`, so
the pair of enhanced dimensions is not the pair of originals scaled by
the selected factor. -/
lemma enhancedSize_ne_scale_of_cap (w h : ℕ)
    (hc : max (preCapSize w h).1 (preCapSize w h).2 > max_size) :
    (((enhancedSize w h).1 : ℕ) : ℚ) ≠ (w : ℚ) * scaleFor (max w h)
    ∨ (((enhancedSize w h).2 : ℕ) : ℚ) ≠ (h : ℚ) * scaleFor (max w h) := by
  have hs0 : 0 < scaleFor (max w h) := scaleFor_pos _
  rcases max_choice (preCapSize w h).1 (preCapSize w h).2 with hm | hm
  · left
    have hnw0 : max_size < (preCapSize w h).1 := by rw [← hm]; exact hc
    have hne : (((preCapSize w h).1 : ℕ) : ℚ) ≠ 0 :=
      Nat.cast_ne_zero.mpr (lt_of_le_of_lt (Nat.zero_le _) hnw0).ne'
    have hfst : (enhancedSize w h).1 = max_size := by
      rw [enhancedSize_of_cap w h hc]
      simp only [hm]
      rw [mul_div_assoc', mul_div_cancel_left₀ _ hne, pyInt_natCast]
    rw [hfst]
    intro heq
    have h1 : (((preCapSize w h).1 : ℕ) : ℚ) ≤ (w : ℚ) * scaleFor (max w h) := by
      rw [preCapSize_fst]
      exact pyInt_le _ (mul_nonneg (Nat.cast_nonneg w) hs0.le)
    have h2 : ((max_size : ℕ) : ℚ) < (((preCapSize w h).1 : ℕ) : ℚ) := by
      exact_mod_cast hnw0
    linarith
  · right
    have hnh0 : max_size < (preCapSize w h).2 := by rw [← hm]; exact hc
    have hne : (((preCapSize w h).2 : ℕ) : ℚ) ≠ 0 :=
      Nat.cast_ne_zero.mpr (lt_of_le_of_lt (Nat.zero_le _) hnh0).ne'
    have hsnd : (enhancedSize w h).2 = max_size := by
      rw [enhancedSize_of_cap w h hc]
      simp only [hm]
      rw [mul_div_assoc', mul_div_cancel_left₀ _ hne, pyInt_natCast]
    rw [hsnd]
    intro heq
    have h1 : (((preCapSize w h).2 : ℕ) : ℚ) ≤ (h : ℚ) * scaleFor (max w h) := by
      rw [preCapSize_snd]
      exact pyInt_le _ (mul_nonneg (Nat.cast_nonneg h) hs0.le)
    have h2 : ((max_size : ℕ) : ℚ) < (((preCapSize w h).2 : ℕ) : ℚ) := by
      exact_mod_cast hnh0
    linarith

/-! ## Claims -/

/-- C1: the scale factor chosen by `enhance_image` is a pure function of
the input's largest dimension alone, piecewise by thresholds: below the
lowest threshold (500) it is the configured maximum 3.0, between 500 and
999 it is 2.5, and at or above 1000 it is the configured minimum 2.0. -/
theorem scale_factor_policy (lib : PixelLib) (a b : Img) :
    (max a.width a.height = max b.width b.height →
      (enhance_image lib a).2.scale_factor = (enhance_image lib b).2.scale_factor)
    ∧ (enhance_image lib a).2.scale_factor = scaleFor (max a.width a.height)
    ∧ (max a.width a.height < 500 → (enhance_image lib a).2.scale_factor = 3)
    ∧ (500 ≤ max a.width a.height → max a.width a.height < 1000 →
        (enhance_image lib a).2.scale_factor = 5/2)
    ∧ (1000 ≤ max a.width a.height → (enhance_image lib a).2.scale_factor = 2) := by
  rw [enhance_image_stats, enhance_image_stats]
  refine ⟨fun hmax => by rw [hmax], rfl, fun h5 => ?_, fun h5 h10 => ?_, fun h10 => ?_⟩
  · simp only [scaleFor, if_pos h5]
  · simp only [scaleFor, if_neg (not_lt.mpr h5), if_pos h10]
  · have h5 : ¬ (max a.width a.height < 500) :=
      not_lt.mpr (le_trans (by norm_num : (500 : ℕ) ≤ 1000) h10)
    simp only [scaleFor, if_neg h5, if_neg (not_lt.mpr h10)]

theorem scale_factor_policy_witness :
    (enhance_image idLib (testImg 300 200)).2.scale_factor
      = (enhance_image idLib (testImg 200 300)).2.scale_factor
    ∧ (enhance_image idLib (testImg 300 200)).2.scale_factor = 3
    ∧ (enhance_image idLib (testImg 700 100)).2.scale_factor = 5/2
    ∧ (enhance_image idLib (testImg 2000 1000)).2.scale_factor = 2 :=
  ⟨((scale_factor_policy idLib (testImg 300 200) (testImg 200 300)).1
      (by decide)).symm ▸ rfl,
   (scale_factor_policy idLib (testImg 300 200) (testImg 300 200)).2.2.1 (by decide),
   (scale_factor_policy idLib (testImg 700 100) (testImg 700 100)).2.2.2.1
     (by decide) (by decide),
   (scale_factor_policy idLib (testImg 2000 1000) (testImg 2000 1000)).2.2.2.2
     (by decide)⟩

/-- C2: the image returned by `enhance_image` has largest dimension at
most `max_size` (2500), and when the cap engages both pre-cap dimensions
are reduced by the same ratio, which lies strictly between 0 and 1. -/
theorem final_cap_respected (lib : PixelLib) (image0 : Img) :
    max (enhance_image lib image0).1.width (enhance_image lib image0).1.height
      ≤ max_size
    ∧ (capEngaged image0.width image0.height = true →
        ∃ ratio : ℚ, 0 < ratio ∧ ratio < 1 ∧
          (enhance_image lib image0).1.width
            = pyInt (((preCapSize image0.width image0.height).1 : ℚ) * ratio)
          ∧ (enhance_image lib image0).1.height
            = pyInt (((preCapSize image0.width image0.height).2 : ℚ) * ratio)) := by
  constructor
  · rw [enhance_image_width, enhance_image_height, enhancedSize_eq]
    exact max_le (enhancedSizeNat_le_max_size _ _).1 (enhancedSizeNat_le_max_size _ _).2
  · intro hcap
    have hc : max (preCapSize image0.width image0.height).1
        (preCapSize image0.width image0.height).2 > max_size := by
      have := (capEngaged_iff image0.width image0.height).mp hcap
      rwa [← preCapSize_eq] at this
    have hM0 : (0 : ℚ) < ((max (preCapSize image0.width image0.height).1
        (preCapSize image0.width image0.height).2 : ℕ) : ℚ) := by
      exact_mod_cast lt_of_le_of_lt (Nat.zero_le max_size) hc
    refine ⟨(max_size : ℚ) / ((max (preCapSize image0.width image0.height).1
        (preCapSize image0.width image0.height).2 : ℕ) : ℚ),
      div_pos (by norm_num [max_size]) hM0, ?_, ?_, ?_⟩
    · rw [div_lt_one hM0]
      exact_mod_cast hc
    · rw [enhance_image_width, enhancedSize_of_cap _ _ hc]
    · rw [enhance_image_height, enhancedSize_of_cap _ _ hc]

theorem final_cap_respected_witness :
    max (enhance_image idLib (testImg 2000 1000)).1.width
      (enhance_image idLib (testImg 2000 1000)).1.height ≤ max_size
    ∧ (∃ ratio : ℚ, 0 < ratio ∧ ratio < 1 ∧
        (enhance_image idLib (testImg 2000 1000)).1.width
          = pyInt (((preCapSize 2000 1000).1 : ℚ) * ratio)
        ∧ (enhance_image idLib (testImg 2000 1000)).1.height
          = pyInt (((preCapSize 2000 1000).2 : ℚ) * ratio)) :=
  ⟨(final_cap_respected idLib (testImg 2000 1000)).1,
   (final_cap_respected idLib (testImg 2000 1000)).2
     ((capEngaged_iff 2000 1000).mpr (by decide))⟩

/-- C3: the enhanced dimensions are, within the rounding tolerance of
truncating each scaled dimension to an integer (strictly less than 2,
one unit per floor applied), the input dimensions scaled by one common
positive ratio — the aspect ratio is preserved up to that tolerance. -/
theorem aspect_ratio_preserved (lib : PixelLib) (image0 : Img) :
    ∃ r : ℚ, 0 < r ∧
      ((enhance_image lib image0).1.width : ℚ) ≤ (image0.width : ℚ) * r ∧
      (image0.width : ℚ) * r < ((enhance_image lib image0).1.width : ℚ) + 2 ∧
      ((enhance_image lib image0).1.height : ℚ) ≤ (image0.height : ℚ) * r ∧
      (image0.height : ℚ) * r < ((enhance_image lib image0).1.height : ℚ) + 2 := by
  rw [enhance_image_width, enhance_image_height]
  exact enhancedSize_approx image0.width image0.height

/-- C4 as stated is false: for a 300×200 input the selected scale factor
is 3.0, not 3.5, and the output is 900×600, not 1050×700. -/
theorem small_input_example_false :
    ¬ ((enhance_image idLib (testImg 300 200)).2.scale_factor = 7/2
       ∧ (enhance_image idLib (testImg 300 200)).1.width = 1050
       ∧ (enhance_image idLib (testImg 300 200)).1.height = 700) := by
  intro ⟨h1, _, _⟩
  rw [enhance_image_stats] at h1
  norm_num [scaleFor, testImg] at h1

/-- C4 amended: for a 300×200 opaque color input (largest dimension 300,
below the lowest threshold 500), `enhance_image` selects scale factor
3.0 and, since the pre-cap size 900×600 is below the cap, returns an
output of exactly 900×600, the same 3:2 aspect ratio. -/
theorem small_input_example :
    (enhance_image idLib (testImg 300 200)).2.scale_factor = 3
    ∧ preCapSize 300 200 = (900, 600)
    ∧ capEngaged 300 200 = false
    ∧ (enhance_image idLib (testImg 300 200)).1.width = 900
    ∧ (enhance_image idLib (testImg 300 200)).1.height = 600
    ∧ (enhance_image idLib (testImg 300 200)).1.width * 2
        = (enhance_image idLib (testImg 300 200)).1.height * 3 := by
  have hpre : preCapSize 300 200 = (900, 600) := by
    rw [preCapSize_eq]; decide
  have hcap : capEngaged 300 200 = false := by
    rw [Bool.eq_false_iff, Ne, capEngaged_iff]; decide
  have hw : (enhance_image idLib (testImg 300 200)).1.width = 900 := by
    rw [enhance_image_width, enhancedSize_eq]
    decide
  have hh : (enhance_image idLib (testImg 300 200)).1.height = 600 := by
    rw [enhance_image_height, enhancedSize_eq]
    decide
  refine ⟨?_, hpre, hcap, hw, hh, ?_⟩
  · rw [enhance_image_stats]
    norm_num [scaleFor, testImg]
  · rw [hw, hh]

/-- C5: for every byte sequence that is not a decodable raster image,
`handle_photo` fails at the decode step: no enhanced image is sent and
no enhancement or encoding runs; the user sees only the failure message
(the processing message edited to the error text). -/
theorem decode_failure_no_output (lib : PixelLib) (decode : Bytes → Option Img)
    (b : Bytes) (hdec : decode b = none) :
    Action.sendPhoto ∉ handle_photo lib decode b
    ∧ Action.sendDocument ∉ handle_photo lib decode b
    ∧ Action.enhance ∉ handle_photo lib decode b
    ∧ Action.encodeOutput ∉ handle_photo lib decode b
    ∧ Action.editProcessingToError ∈ handle_photo lib decode b := by
  unfold handle_photo
  rw [hdec]
  refine ⟨by decide, by decide, by decide, by decide, by decide⟩

theorem decode_failure_no_output_witness :
    Action.sendPhoto ∉ handle_photo idLib (fun _ => none) ([] : Bytes)
    ∧ Action.sendDocument ∉ handle_photo idLib (fun _ => none) ([] : Bytes)
    ∧ Action.enhance ∉ handle_photo idLib (fun _ => none) ([] : Bytes)
    ∧ Action.encodeOutput ∉ handle_photo idLib (fun _ => none) ([] : Bytes)
    ∧ Action.editProcessingToError ∈ handle_photo idLib (fun _ => none) ([] : Bytes) :=
  decode_failure_no_output idLib (fun _ => none) [] rfl

/-- C6: a document whose declared size exceeds the 3MB cap is answered
with the rejection reply and the handler returns before any fetch,
download, decode, or enhancement; likewise for a document whose MIME
type is not an image type. -/
theorem document_rejected_early (lib : PixelLib) (decode : Bytes → Option Img)
    (d : Document) :
    (isImageMime d.mime_type = true → docSizeCap < d.file_size →
        handle_document lib decode d = [Action.replyTooLarge]
        ∧ Action.fetchFile ∉ handle_document lib decode d
        ∧ Action.downloadBytes ∉ handle_document lib decode d
        ∧ Action.decodeImage ∉ handle_document lib decode d
        ∧ Action.enhance ∉ handle_document lib decode d)
    ∧ (isImageMime d.mime_type = false →
        handle_document lib decode d = [Action.replyNotImage]
        ∧ Action.fetchFile ∉ handle_document lib decode d
        ∧ Action.downloadBytes ∉ handle_document lib decode d
        ∧ Action.decodeImage ∉ handle_document lib decode d
        ∧ Action.enhance ∉ handle_document lib decode d) := by
  constructor
  · intro hmime hsize
    have he : handle_document lib decode d = [Action.replyTooLarge] := by
      unfold handle_document
      rw [if_neg (by simp [hmime]), if_pos hsize]
    rw [he]
    exact ⟨rfl, by decide, by decide, by decide, by decide⟩
  · intro hmime
    have he : handle_document lib decode d = [Action.replyNotImage] := by
      unfold handle_document
      rw [if_pos (by simp [hmime])]
    rw [he]
    exact ⟨rfl, by decide, by decide, by decide, by decide⟩

theorem document_rejected_early_witness :
    (handle_document idLib (fun _ => none)
        ⟨some ['i', 'm', 'a', 'g', 'e', '/', 'p', 'n', 'g'], 3 * 1024 * 1024 + 1, []⟩ = [Action.replyTooLarge]
      ∧ Action.fetchFile ∉ handle_document idLib (fun _ => none)
          ⟨some ['i', 'm', 'a', 'g', 'e', '/', 'p', 'n', 'g'], 3 * 1024 * 1024 + 1, []⟩
      ∧ Action.downloadBytes ∉ handle_document idLib (fun _ => none)
          ⟨some ['i', 'm', 'a', 'g', 'e', '/', 'p', 'n', 'g'], 3 * 1024 * 1024 + 1, []⟩
      ∧ Action.decodeImage ∉ handle_document idLib (fun _ => none)
          ⟨some ['i', 'm', 'a', 'g', 'e', '/', 'p', 'n', 'g'], 3 * 1024 * 1024 + 1, []⟩
      ∧ Action.enhance ∉ handle_document idLib (fun _ => none)
          ⟨some ['i', 'm', 'a', 'g', 'e', '/', 'p', 'n', 'g'], 3 * 1024 * 1024 + 1, []⟩)
    ∧ (handle_document idLib (fun _ => none)
        ⟨some ['v', 'i', 'd', 'e', 'o', '/', 'm', 'p', '4'], 10, []⟩ = [Action.replyNotImage]
      ∧ Action.fetchFile ∉ handle_document idLib (fun _ => none)
          ⟨some ['v', 'i', 'd', 'e', 'o', '/', 'm', 'p', '4'], 10, []⟩
      ∧ Action.downloadBytes ∉ handle_document idLib (fun _ => none)
          ⟨some ['v', 'i', 'd', 'e', 'o', '/', 'm', 'p', '4'], 10, []⟩
      ∧ Action.decodeImage ∉ handle_document idLib (fun _ => none)
          ⟨some ['v', 'i', 'd', 'e', 'o', '/', 'm', 'p', '4'], 10, []⟩
      ∧ Action.enhance ∉ handle_document idLib (fun _ => none)
          ⟨some ['v', 'i', 'd', 'e', 'o', '/', 'm', 'p', '4'], 10, []⟩) :=
  ⟨(document_rejected_early idLib (fun _ => none)
      ⟨some ['i', 'm', 'a', 'g', 'e', '/', 'p', 'n', 'g'], 3 * 1024 * 1024 + 1, []⟩).1 (by decide)
      (by norm_num [docSizeCap]),
   (document_rejected_early idLib (fun _ => none)
      ⟨some ['v', 'i', 'd', 'e', 'o', '/', 'm', 'p', '4'], 10, []⟩).2 (by decide)⟩

/-- A 1×1 `LA` image whose only pixel is fully transparent black. -/
def laTransparentImg : Img :=
  { mode := Mode.LA, width := 1, height := 1, px := fun _ _ => ⟨0, 0, 0, 0⟩ }

/-- C7 as stated is false for mode `LA`: a fully transparent black `LA`
pixel is not composited onto white — the source passes `mask=None` for
`LA`, so the gray value is copied opaquely and the pixel stays black. -/
theorem transparency_composited_false :
    laTransparentImg.mode = Mode.LA
    ∧ (laTransparentImg.px 0 0).a = 0
    ∧ (normalizeMode laTransparentImg).px 0 0 ≠ ⟨255, 255, 255, 255⟩
    ∧ (normalizeMode laTransparentImg).px 0 0 = ⟨0, 0, 0, 255⟩ := by
  exact ⟨rfl, rfl, by decide, rfl⟩

/-- C7 amended: `normalizeMode` always yields a three-channel `RGB`
image before any transform, and for the transparency-carrying modes
`RGBA` and palette (`P`) every fully transparent pixel is composited
onto the white background; for `LA` the source passes no mask to
`paste`, so the alpha channel is ignored and the gray values are copied
opaquely instead. -/
theorem transparency_composited (image0 : Img) :
    (normalizeMode image0).mode = Mode.RGB
    ∧ ((image0.mode = Mode.RGBA ∨ image0.mode = Mode.P) →
        ∀ x y, (image0.px x y).a = 0 →
          (normalizeMode image0).px x y = ⟨255, 255, 255, 255⟩)
    ∧ (image0.mode = Mode.LA →
        ∀ x y, (normalizeMode image0).px x y =
          ⟨(image0.px x y).r, (image0.px x y).g, (image0.px x y).b, 255⟩) := by
  refine ⟨?_, ?_, ?_⟩
  · cases hmode : image0.mode <;>
      simp [normalizeMode, hmode]
  · intro hm x y ha
    have hblend : ∀ c : ℕ, blend 0 255 c = 255 := by
      intro c
      simp [blend, muldiv255]
    rcases hm with hm | hm <;>
      · unfold normalizeMode
        rw [hm]
        simp [ha, hblend]
  · intro hm x y
    unfold normalizeMode
    rw [hm]

/-- A 1×1 `RGBA` image whose only pixel is fully transparent. -/
def rgbaTransparentImg : Img :=
  { mode := Mode.RGBA, width := 1, height := 1, px := fun _ _ => ⟨10, 20, 30, 0⟩ }

theorem transparency_composited_witness :
    (normalizeMode rgbaTransparentImg).mode = Mode.RGB
    ∧ (normalizeMode rgbaTransparentImg).px 0 0 = ⟨255, 255, 255, 255⟩
    ∧ (normalizeMode laTransparentImg).px 0 0 =
        ⟨(laTransparentImg.px 0 0).r, (laTransparentImg.px 0 0).g,
         (laTransparentImg.px 0 0).b, 255⟩ :=
  ⟨(transparency_composited rgbaTransparentImg).1,
   (transparency_composited rgbaTransparentImg).2.1 (Or.inl rfl) 0 0 rfl,
   (transparency_composited laTransparentImg).2.2 rfl 0 0⟩

/-- C8: `enhance_image` is deterministic and its metadata record is a
function of the input dimensions alone: equal inputs give equal output
images and equal metadata, and inputs of equal dimensions give equal
metadata, for any fixed filter library — the embedding threads no state
between invocations. -/
theorem enhance_deterministic (lib : PixelLib) (a b : Img) :
    (a = b → enhance_image lib a = enhance_image lib b)
    ∧ (a.width = b.width → a.height = b.height →
        (enhance_image lib a).2 = (enhance_image lib b).2) := by
  constructor
  · intro hab
    rw [hab]
  · intro hw hh
    rw [enhance_image_stats, enhance_image_stats, hw, hh]

theorem enhance_deterministic_witness :
    enhance_image idLib (testImg 300 200) = enhance_image idLib (testImg 300 200)
    ∧ (enhance_image idLib (testImg 300 200)).2
        = (enhance_image idLib
            { mode := Mode.RGB, width := 300, height := 200,
              px := fun _ _ => ⟨255, 255, 255, 255⟩ }).2 :=
  ⟨(enhance_deterministic idLib (testImg 300 200) (testImg 300 200)).1 rfl,
   (enhance_deterministic idLib (testImg 300 200)
      { mode := Mode.RGB, width := 300, height := 200,
        px := fun _ _ => ⟨255, 255, 255, 255⟩ }).2 rfl rfl⟩

/-- C9: the document size check is strict: among image-typed documents,
the rejection reply is sent exactly when the declared size strictly
exceeds the 3MB cap; a document of exactly `3*1024*1024` bytes is not
rejected and its bytes are fetched. -/
theorem size_check_strict (lib : PixelLib) (decode : Bytes → Option Img)
    (d : Document) (hmime : isImageMime d.mime_type = true) :
    (Action.replyTooLarge ∈ handle_document lib decode d ↔
      docSizeCap < d.file_size)
    ∧ (d.file_size = docSizeCap →
        Action.fetchFile ∈ handle_document lib decode d) := by
  have hcond : ¬ ¬ (isImageMime d.mime_type = true) := by simp [hmime]
  constructor
  · constructor
    · intro hmem
      by_contra hsize
      push_neg at hsize
      have hle : ¬ (d.file_size > docSizeCap) := not_lt.mpr hsize
      unfold handle_document at hmem
      rw [if_neg hcond, if_neg hle] at hmem
      rcases hdec : decode d.content with _ | img <;> rw [hdec] at hmem <;>
        simp_all
    · intro hsize
      unfold handle_document
      rw [if_neg hcond, if_pos hsize]
      decide
  · intro hsize
    have hle : ¬ (d.file_size > docSizeCap) := by
      rw [hsize]
      exact lt_irrefl _
    unfold handle_document
    rw [if_neg hcond, if_neg hle]
    rcases decode d.content with _ | img <;> simp

theorem size_check_strict_witness :
    (Action.replyTooLarge ∈
        handle_document idLib (fun _ => none)
          ⟨some ['i', 'm', 'a', 'g', 'e', '/', 'p', 'n', 'g'], 3 * 1024 * 1024, []⟩
      ↔ docSizeCap < 3 * 1024 * 1024)
    ∧ Action.fetchFile ∈
        handle_document idLib (fun _ => none)
          ⟨some ['i', 'm', 'a', 'g', 'e', '/', 'p', 'n', 'g'], 3 * 1024 * 1024, []⟩ :=
  ⟨(size_check_strict idLib (fun _ => none)
      ⟨some ['i', 'm', 'a', 'g', 'e', '/', 'p', 'n', 'g'], 3 * 1024 * 1024, []⟩
      (by decide)).1,
   (size_check_strict idLib (fun _ => none)
      ⟨some ['i', 'm', 'a', 'g', 'e', '/', 'p', 'n', 'g'], 3 * 1024 * 1024, []⟩
      (by decide)).2 rfl⟩

/-- C10: the `scale_factor` reported in the metadata is always the
pre-cap selected factor `scaleFor (max w h)`; whenever the final-cap
downscaling engages, the enhanced dimensions are not the original
dimensions multiplied by that reported factor. -/
theorem reported_scale_pre_cap (lib : PixelLib) (image0 : Img) :
    (enhance_image lib image0).2.scale_factor
      = scaleFor (max image0.width image0.height)
    ∧ (capEngaged image0.width image0.height = true →
        ¬ (((enhance_image lib image0).1.width : ℚ)
              = (image0.width : ℚ) * (enhance_image lib image0).2.scale_factor
           ∧ ((enhance_image lib image0).1.height : ℚ)
              = (image0.height : ℚ) * (enhance_image lib image0).2.scale_factor)) := by
  have hstats : (enhance_image lib image0).2.scale_factor
      = scaleFor (max image0.width image0.height) := by
    rw [enhance_image_stats]
  refine ⟨hstats, fun hcap ⟨hw, hh⟩ => ?_⟩
  have hc : max (preCapSize image0.width image0.height).1
      (preCapSize image0.width image0.height).2 > max_size := by
    have := (capEngaged_iff image0.width image0.height).mp hcap
    rwa [← preCapSize_eq] at this
  rcases enhancedSize_ne_scale_of_cap image0.width image0.height hc with hne | hne
  · exact hne (by rw [← enhance_image_width lib image0, hw, hstats])
  · exact hne (by rw [← enhance_image_height lib image0, hh, hstats])

theorem reported_scale_pre_cap_witness :
    (enhance_image idLib (testImg 2000 1000)).2.scale_factor = scaleFor 2000
    ∧ ¬ (((enhance_image idLib (testImg 2000 1000)).1.width : ℚ)
            = (2000 : ℚ) * (enhance_image idLib (testImg 2000 1000)).2.scale_factor
         ∧ ((enhance_image idLib (testImg 2000 1000)).1.height : ℚ)
            = (1000 : ℚ) * (enhance_image idLib (testImg 2000 1000)).2.scale_factor) := by
  have h := reported_scale_pre_cap idLib (testImg 2000 1000)
  have hcap : capEngaged (testImg 2000 1000).width (testImg 2000 1000).height = true :=
    (capEngaged_iff 2000 1000).mpr (by decide)
  exact ⟨h.1, by
    intro hcontra
    exact h.2 hcap ⟨by exact_mod_cast hcontra.1, by exact_mod_cast hcontra.2⟩⟩

end Remini
